import Mathlib

/-!
Verification of the hybrid retrieval core of `mirror-server`.

The definitions below are a shallow embedding of the TypeScript sources:

* `src/modules/knowledge/retrievers/hybrid.retriever.ts` (HybridRetriever)
* `src/modules/knowledge/bm25-index.service.ts` (BM25IndexService)
* `src/modules/knowledge/tokenizer.service.ts` (TokenizerService)

JavaScript numbers are modelled as `Option ℚ`: `some q` is an ordinary
(finite) number, `none` stands for the non-finite values (`NaN`, and the
value of reading an unassigned property, `undefined`, once it enters
arithmetic).  Finite score arithmetic in the source never overflows the
exactness of ℚ, and the claims under study do not involve rounding.
JavaScript `Map` objects are modelled as insertion-ordered association
lists (`Map.set` of an existing key updates in place, a new key is
appended at the end; iteration follows insertion order).
`Array.prototype.sort` is stable (ECMAScript 2019), and is modelled by a
stable insertion sort on the comparator's key.
-/

namespace Mirror

/-- JavaScript truthiness coercion `x || 0` applied to a score field:
`undefined` and `NaN` are falsy and collapse to `0`; a finite number is
returned unchanged (`0 || 0 = 0` as well). -/
def jsOr0 (x : Option ℚ) : ℚ := x.getD 0

/-- Addition on JS numbers: `NaN`/`undefined` propagates. -/
def jsAdd (x y : Option ℚ) : Option ℚ :=
  match x, y with
  | some a, some b => some (a + b)
  | _, _ => none

/-- Multiplication of a JS number by a finite constant: `NaN` propagates. -/
def jsMul (x : Option ℚ) (c : ℚ) : Option ℚ := x.map (· * c)

/-- The JS expression `1 / d` for a JS number `d`.  Division by zero gives
`Infinity`, a non-finite value, also modelled by `none`; it is unreachable
in every theorem below (denominators are of the form `k + rank` with
`k ≥ 0` and `rank ≥ 1`, or are floored at `0.001`). -/
def jsOneDiv (d : Option ℚ) : Option ℚ :=
  match d with
  | none => none
  | some a => if a = 0 then none else some (1 / a)

/-- Stability-preserving insertion for a descending sort: an element is
placed before the first strictly smaller key, hence after all elements
with an equal key that were already present. -/
def insertByDesc {α : Type} (key : α → ℚ) (a : α) : List α → List α
  | [] => [a]
  | b :: bs => if key b ≤ key a then a :: b :: bs else b :: insertByDesc key a bs

/-- Stable descending sort by a rational key.  This models the stable
`Array.prototype.sort` with the numeric comparator
`(a, b) => key b - key a` used throughout the source. -/
def sortByDesc {α : Type} (key : α → ℚ) : List α → List α
  | [] => []
  | a :: as => insertByDesc key a (sortByDesc key as)

theorem mem_insertByDesc {α : Type} (key : α → ℚ) (a : α) (l : List α) (x : α) :
    x ∈ insertByDesc key a l ↔ x = a ∨ x ∈ l := by
  induction l with
  | nil => simp [insertByDesc]
  | cons b bs ih =>
    by_cases h : key b ≤ key a
    · simp [insertByDesc, h]
    · simp only [insertByDesc, if_neg h, List.mem_cons, ih]
      tauto

theorem mem_sortByDesc {α : Type} (key : α → ℚ) (l : List α) (x : α) :
    x ∈ sortByDesc key l ↔ x ∈ l := by
  induction l with
  | nil => simp [sortByDesc]
  | cons a as ih => simp [sortByDesc, mem_insertByDesc, ih]

theorem pairwise_insertByDesc {α : Type} (key : α → ℚ) (a : α) (l : List α)
    (h : l.Pairwise (fun x y => key y ≤ key x)) :
    (insertByDesc key a l).Pairwise (fun x y => key y ≤ key x) := by
  induction l with
  | nil => simp [insertByDesc]
  | cons b bs ih =>
    rcases List.pairwise_cons.mp h with ⟨hb, hbs⟩
    by_cases hle : key b ≤ key a
    · rw [insertByDesc, if_pos hle]
      refine List.pairwise_cons.mpr ⟨?_, h⟩
      intro y hy
      rcases List.mem_cons.mp hy with rfl | hy
      · exact hle
      · exact le_trans (hb y hy) hle
    · rw [insertByDesc, if_neg hle]
      refine List.pairwise_cons.mpr ⟨?_, ih hbs⟩
      intro y hy
      rcases (mem_insertByDesc key a bs y).mp hy with rfl | hy
      · exact le_of_not_le hle
      · exact hb y hy

theorem pairwise_sortByDesc {α : Type} (key : α → ℚ) (l : List α) :
    (sortByDesc key l).Pairwise (fun x y => key y ≤ key x) := by
  induction l with
  | nil => simp [sortByDesc]
  | cons a as ih => exact pairwise_insertByDesc key a _ ih

/-- A stable descending sort of a list whose keys are all equal is the
identity: the comparator reports a tie everywhere. -/
theorem sortByDesc_all_eq {α : Type} (key : α → ℚ) (c : ℚ) (l : List α)
    (h : ∀ a ∈ l, key a = c) : sortByDesc key l = l := by
  induction l with
  | nil => rfl
  | cons a as ih =>
    have ha : key a = c := h a (List.mem_cons_self a as)
    have ih' : sortByDesc key as = as := ih fun x hx => h x (List.mem_cons_of_mem a hx)
    cases as with
    | nil => simp [sortByDesc, insertByDesc]
    | cons b bs =>
      have hb : key b = c := h b (by simp)
      simp only [sortByDesc] at ih' ⊢
      rw [ih', insertByDesc, if_pos (by rw [ha, hb])]

/-- Insertion-ordered association list update, modelling `Map.set`:
an existing key keeps its position, a new key is appended at the end. -/
def mapSet {κ β : Type} [DecidableEq κ] : List (κ × β) → κ → β → List (κ × β)
  | [], k, v => [(k, v)]
  | (k', v') :: rest, k, v =>
      if k' = k then (k, v) :: rest else (k', v') :: mapSet rest k v

/-- Association-list lookup, modelling `Map.get`. -/
def mapGet? {κ β : Type} [DecidableEq κ] : List (κ × β) → κ → Option β
  | [], _ => none
  | (k', v') :: rest, k => if k' = k then some v' else mapGet? rest k

theorem mapGet?_of_mem_value {κ β : Type} [DecidableEq κ]
    (l : List (κ × β)) (k : κ) (v : β) (h : mapGet? l k = some v) :
    (k, v) ∈ l := by
  induction l with
  | nil => simp [mapGet?] at h
  | cons p rest ih =>
    obtain ⟨k', v'⟩ := p
    by_cases hk : k' = k
    · subst hk
      simp [mapGet?] at h
      subst h
      exact List.mem_cons_self _ _
    · simp [mapGet?, hk] at h
      exact List.mem_cons_of_mem _ (ih h)

/-! ## HybridRetriever (`hybrid.retriever.ts`) -/

/-- Row shape of `vectorSearch` results (`VectorSearchResult`). -/
structure VectorSearchResult where
  id : Int
  content : String
  similarity : ℚ
  deriving DecidableEq, Repr

/-- Row shape of `keywordSearch` results (`KeywordSearchResult`). -/
structure KeywordSearchResult where
  id : Int
  fileName : String
  content : String
  preview : String
  size : Int
  type : String
  matchCount : Int
  deriving DecidableEq, Repr

/-- The `SearchResult` record produced by fusion.  `hybridScore` is an
optional JS number in the source (`hybridScore?: number`); `none` covers
both "not yet set" and `NaN`. -/
structure SearchResult where
  id : Int
  fileName : String
  content : String
  preview : String
  size : Int
  type : String
  similarity : ℚ
  keywordScore : ℚ
  hybridScore : Option ℚ
  deriving DecidableEq, Repr

/-- Constructor options (`HybridRetrieverOptions`), every field optional. -/
structure HybridRetrieverOptions where
  limit : Option Nat := none
  minSimilarity : Option ℚ := none
  rrfK : Option ℚ := none
  vectorWeight : Option ℚ := none
  keywordWeight : Option ℚ := none
  useBM25Rerank : Option Bool := none
  bm25Weight : Option ℚ := none
  deriving Repr

/-- The fields the `HybridRetriever` constructor actually assigns.
Note: the source class declares and assigns NO `rrfK` field even though
`HybridRetrieverOptions.rrfK` exists and `mergeResultsWithRRF` reads
`this.rrfK`; see `thisRrfK` below. -/
structure HybridRetrieverConfig where
  limit : Nat
  minSimilarity : ℚ
  vectorWeight : ℚ
  keywordWeight : ℚ
  useBM25Rerank : Bool
  bm25Weight : ℚ
  deriving Repr

/-- The constructor body: each field defaults exactly as in the source
(`options.limit ?? 5`, `options.minSimilarity ?? 0.3`,
`options.vectorWeight ?? 0.7`, `options.keywordWeight ?? 0.3`,
`options.useBM25Rerank ?? false`, `options.bm25Weight ?? 0.3`).
`options.rrfK` is never read. -/
def mkConfig (options : HybridRetrieverOptions) : HybridRetrieverConfig where
  limit := options.limit.getD 5
  minSimilarity := options.minSimilarity.getD (3 / 10)
  vectorWeight := options.vectorWeight.getD (7 / 10)
  keywordWeight := options.keywordWeight.getD (3 / 10)
  useBM25Rerank := options.useBM25Rerank.getD false
  bm25Weight := options.bm25Weight.getD (3 / 10)

/-- The value of the property read `this.rrfK` inside
`mergeResultsWithRRF`: the class never declares or assigns `rrfK`
(the constructor ignores `options.rrfK`), so the read yields
`undefined`, which is non-finite once it enters arithmetic. -/
def thisRrfK : Option ℚ := none

/-- The per-entry accumulator stored in `scoreMap` during fusion. -/
structure RRFAcc where
  result : SearchResult
  vectorRank : Option Nat
  keywordRank : Option Nat
  vectorScore : Option ℚ
  keywordScore : Option ℚ
  deriving Repr

/-- The RRF contribution of 0-based position `index`:
`1 / (this.rrfK + index + 1)` in JS-number arithmetic. -/
def rrfScoreAt (rrfK : Option ℚ) (index : Nat) : Option ℚ :=
  jsOneDiv (jsAdd rrfK (some ((index : ℚ) + 1)))

/-- First pass of `mergeResultsWithRRF`: each vector result is written to
`scoreMap` with `vectorScore = rrfScore * vectorWeight`. -/
def rrfVectorPass (cfg : HybridRetrieverConfig) (rrfK : Option ℚ)
    (vectorResults : List VectorSearchResult) : List (Int × RRFAcc) :=
  (vectorResults.enum).foldl
    (fun m (p : Nat × VectorSearchResult) =>
      let index := p.1
      let result := p.2
      mapSet m result.id
        { result :=
            { id := result.id, fileName := "", content := result.content,
              preview := "", size := 0, type := "",
              similarity := result.similarity, keywordScore := 0,
              hybridScore := some 0 }
          vectorRank := some (index + 1)
          keywordRank := none
          vectorScore := jsMul (rrfScoreAt rrfK index) cfg.vectorWeight
          keywordScore := some 0 })
    []

/-- Second pass of `mergeResultsWithRRF`: keyword results either update an
existing entry in place or append a new one. -/
def rrfKeywordPass (cfg : HybridRetrieverConfig) (rrfK : Option ℚ)
    (m0 : List (Int × RRFAcc)) (keywordResults : List KeywordSearchResult) :
    List (Int × RRFAcc) :=
  (keywordResults.enum).foldl
    (fun m (p : Nat × KeywordSearchResult) =>
      let index := p.1
      let result := p.2
      match mapGet? m result.id with
      | some existing =>
          mapSet m result.id
            { existing with
              keywordRank := some (index + 1)
              keywordScore := jsMul (rrfScoreAt rrfK index) cfg.keywordWeight
              result :=
                { existing.result with
                  fileName := result.fileName, preview := result.preview,
                  size := result.size, type := result.type,
                  keywordScore := (result.matchCount : ℚ) } }
      | none =>
          mapSet m result.id
            { result :=
                { id := result.id, fileName := result.fileName,
                  content := result.content, preview := result.preview,
                  size := result.size, type := result.type,
                  similarity := 0, keywordScore := (result.matchCount : ℚ),
                  hybridScore := some 0 }
              vectorRank := none
              keywordRank := some (index + 1)
              vectorScore := some 0
              keywordScore := jsMul (rrfScoreAt rrfK index) cfg.keywordWeight })
    m0

/-- The fused list before sorting and truncation: every map value with
`hybridScore := vectorScore + keywordScore`. -/
def rrfMergedPreSort (cfg : HybridRetrieverConfig)
    (vectorResults : List VectorSearchResult)
    (keywordResults : List KeywordSearchResult) : List SearchResult :=
  (rrfKeywordPass cfg thisRrfK (rrfVectorPass cfg thisRrfK vectorResults)
      keywordResults).map
    (fun kv =>
      { kv.2.result with hybridScore := jsAdd kv.2.vectorScore kv.2.keywordScore })

/-- The method `HybridRetriever.mergeResultsWithRRF`: build the score map
from both ranked lists, compute the hybrid score of each entry, sort by
`(b.hybridScore || 0) - (a.hybridScore || 0)` (stable, descending), and
truncate to `this.limit`. -/
def mergeResultsWithRRF (cfg : HybridRetrieverConfig)
    (vectorResults : List VectorSearchResult)
    (keywordResults : List KeywordSearchResult) : List SearchResult :=
  ((sortByDesc (fun r => jsOr0 r.hybridScore)
      (rrfMergedPreSort cfg vectorResults keywordResults)).take cfg.limit)

/-- Fold for `Math.max(...values, floor)`: the floor argument is listed
last in the source, but `max` is commutative and associative, so folding
from the floor is the same value. -/
def listMaxQ (floor : ℚ) (l : List ℚ) : ℚ := l.foldl max floor

theorem floor_le_listMaxQ (floor : ℚ) (l : List ℚ) : floor ≤ listMaxQ floor l := by
  induction l generalizing floor with
  | nil => exact le_refl _
  | cons a as ih =>
    calc floor ≤ max floor a := le_max_left _ _
      _ ≤ listMaxQ (max floor a) as := ih (max floor a)

theorem le_listMaxQ_of_mem (floor : ℚ) (l : List ℚ) (x : ℚ) (hx : x ∈ l) :
    x ≤ listMaxQ floor l := by
  induction l generalizing floor with
  | nil => cases hx
  | cons a as ih =>
    show x ≤ listMaxQ (max floor a) as
    rcases List.mem_cons.mp hx with rfl | hx
    · exact le_trans (le_max_right floor x) (floor_le_listMaxQ _ as)
    · exact ih (max floor a) hx

/-- The outcome of the awaited call
`bm25IndexService.getScoresForDocuments(userId, query, resultIds)`:
either the returned id-to-score map (insertion-ordered pairs) or a raised
error.  It is the fallible operation inside the `try` block of
`rerankWithBM25`. -/
abbrev BM25ScoresOutcome := Except Unit (List (String × ℚ))

/-- The method `HybridRetriever.rerankWithBM25`.

Control flow from the source: an empty result list is returned as is;
inside `try`, if `bm25IndexService.hasIndex(userId)` is false the
pre-rerank results are returned unchanged; any error raised by the
awaited score lookup is caught and the pre-rerank results are returned
unchanged.  Otherwise each result's `hybridScore` is replaced by
`normalizedRRF * (1 - bm25Weight) + normalizedBM25 * bm25Weight`, where
both normalizations divide by the corresponding maximum floored at
`0.001`, and the list is re-sorted (stable) by descending score. -/
def rerankWithBM25 (bm25Weight : ℚ) (hasIdx : Bool)
    (scoresOutcome : BM25ScoresOutcome) (results : List SearchResult) :
    List SearchResult :=
  if results.isEmpty then results
  else if !hasIdx then results
  else
    match scoresOutcome with
    | .error _ => results
    | .ok bm25Scores =>
        let maxRRFScore := listMaxQ (1 / 1000)
          (results.map (fun r => jsOr0 r.hybridScore))
        let maxBM25Score := listMaxQ (1 / 1000) (bm25Scores.map (fun p => p.2))
        let rerankedResults := results.map (fun result =>
          let bm25Score := (mapGet? bm25Scores (toString result.id)).getD 0
          let normalizedBM25Score := bm25Score / maxBM25Score
          let normalizedRRFScore := jsOr0 result.hybridScore / maxRRFScore
          let rrfWeight := 1 - bm25Weight
          { result with
            hybridScore := some (normalizedRRFScore * rrfWeight +
              normalizedBM25Score * bm25Weight) })
        sortByDesc (fun r => jsOr0 r.hybridScore) rerankedResults

/-- The rerank gate in `_getRelevantDocuments` / `getSearchResults`:
the stage runs only when `useBM25Rerank` is set and a `bm25IndexService`
was provided. -/
def applyRerankStage (cfg : HybridRetrieverConfig) (hasService : Bool)
    (hasIdx : Bool) (scoresOutcome : BM25ScoresOutcome)
    (mergedResults : List SearchResult) : List SearchResult :=
  if cfg.useBM25Rerank && hasService then
    rerankWithBM25 cfg.bm25Weight hasIdx scoresOutcome mergedResults
  else mergedResults

/-! ## SQL construction: `vectorSearch`, `escapeSQL` and the keyword predicate -/

/-- The exact text of the SQL template literal sent by
`HybridRetriever.vectorSearch` (source lines 278-284).  Note the fourth
line of the statement: a stray line of TypeScript replaced the
similarity-floor condition `AND 1 - (embedding <=> $1::vector) >= $3`
that the repository's migration guide documents for this query. -/
def vectorSearchSQL : String :=
  "SELECT id, content, \n                  1 - (embedding <=> $1::vector) as similarity\n           FROM \"Knowledge\"\n           WHERE \"userId\" = $2 \n      const keywords = this.extractKeywords(query);\n           ORDER BY embedding <=> $1::vector\n           LIMIT $4"

/-- The number of bind parameters `vectorSearch` passes with the query:
`[queryEmbeddingString, this.userId, this.minSimilarity, this.limit * 2]`. -/
def vectorSearchParamCount : Nat := 4

/-- Whether a character list mentions the bind parameter `$d` for a
digit character `d`. -/
def refsParam : List Char → Char → Bool
  | [], _ => false
  | c :: rest, d =>
      match rest with
      | [] => false
      | c' :: _ => (c == '$' && c' == d) || refsParam rest d

/-- Prefix test on character lists. -/
def charsHavePre : List Char → List Char → Bool
  | [], _ => true
  | _ :: _, [] => false
  | a :: as, b :: bs => a == b && charsHavePre as bs

/-- Substring test on character lists. -/
def charsContain (pat : List Char) : List Char → Bool
  | [] => charsHavePre pat []
  | c :: rest => charsHavePre pat (c :: rest) || charsContain pat rest

/-- Mapping rows of a successful vector query, or the `catch` branch:
any error from the embedding call or the store makes `vectorSearch`
return the empty list. -/
def vectorSearchRun (outcome : Except Unit (List VectorSearchResult)) :
    List VectorSearchResult :=
  match outcome with
  | .ok rows => rows
  | .error _ => []

/-- The single-quote character. -/
def squote : Char := Char.ofNat 39

/-- The backslash character. -/
def bslash : Char := Char.ofNat 92

/-- First replace of `escapeSQL`: `str.replace(/'/g, "''")`. -/
def replaceQuotes : List Char → List Char
  | [] => []
  | c :: rest =>
      if c = squote then squote :: squote :: replaceQuotes rest
      else c :: replaceQuotes rest

/-- Second replace of `escapeSQL`: every `%` becomes `\%`. -/
def replacePercents : List Char → List Char
  | [] => []
  | c :: rest =>
      if c = '%' then bslash :: '%' :: replacePercents rest
      else c :: replacePercents rest

/-- Third replace of `escapeSQL`: every `_` becomes `\_`. -/
def replaceUnderscores : List Char → List Char
  | [] => []
  | c :: rest =>
      if c = '_' then bslash :: '_' :: replaceUnderscores rest
      else c :: replaceUnderscores rest

/-- The method `HybridRetriever.escapeSQL`: the three global replaces
applied in source order. -/
def escapeSQL (s : List Char) : List Char :=
  replaceUnderscores (replacePercents (replaceQuotes s))

/-- Decoding of a single-quoted SQL string literal body
(`standard_conforming_strings`, the PostgreSQL default): a doubled quote
decodes to one quote; a lone quote would terminate the literal early, so
a body containing one is malformed (`none`); every other character,
backslash included, stands for itself. -/
def decodeSqlLit : List Char → Option (List Char)
  | [] => some []
  | c :: rest =>
      if c = squote then
        match rest with
        | c' :: rest' =>
            if c' = squote then (decodeSqlLit rest').map (squote :: ·)
            else none
        | [] => none
      else (decodeSqlLit rest).map (c :: ·)

/-- Tokens of a PostgreSQL `LIKE`/`ILIKE` pattern. -/
inductive LikeTok where
  | lit (c : Char)
  | anyOne
  | anyStr
  deriving DecidableEq, Repr

/-- Parsing a `LIKE` pattern with the default escape character `\`:
`\c` is the literal `c` (a pattern ending in a lone escape is an error),
`%` matches any sequence, `_` matches any single character. -/
def parseLikePattern : List Char → Option (List LikeTok)
  | [] => some []
  | c :: rest =>
      if c = bslash then
        match rest with
        | c' :: rest' => (parseLikePattern rest').map (LikeTok.lit c' :: ·)
        | [] => none
      else if c = '%' then (parseLikePattern rest).map (LikeTok.anyStr :: ·)
      else if c = '_' then (parseLikePattern rest).map (LikeTok.anyOne :: ·)
      else (parseLikePattern rest).map (LikeTok.lit c :: ·)

/-- Disjunction of a predicate over every suffix of a character list
(the list itself and the empty suffix included). -/
def anySuffix (f : List Char → Bool) : List Char → Bool
  | [] => f []
  | d :: ds => f (d :: ds) || anySuffix f ds

/-- Matching of a parsed pattern against content, case-insensitively
(`ILIKE` lower-cases both sides).  A `%` token matches when the rest of
the pattern matches some suffix of the remaining content. -/
def likeMatches : List LikeTok → List Char → Bool
  | [], ds => ds.isEmpty
  | LikeTok.lit c :: ps, ds =>
      match ds with
      | [] => false
      | d :: ds' => c.toLower == d.toLower && likeMatches ps ds'
  | LikeTok.anyOne :: ps, ds =>
      match ds with
      | [] => false
      | _ :: ds' => likeMatches ps ds'
  | LikeTok.anyStr :: ps, ds => anySuffix (likeMatches ps) ds

/-- The per-keyword predicate `keywordSearch` builds:
`content ILIKE '%${escapeSQL(kw)}%'`.  The literal body is decoded by the
SQL lexer, parsed as a `LIKE` pattern, and matched against the content;
`none` means the constructed fragment was not a well-formed single
literal followed by a well-formed pattern. -/
def keywordPredicate (kw content : List Char) : Option Bool :=
  (decodeSqlLit (escapeSQL kw)).bind fun body =>
    (parseLikePattern ('%' :: body ++ ['%'])).map fun toks =>
      likeMatches toks content

/-! ## TokenizerService (`tokenizer.service.ts`) -/

/-- The constant `CHINESE_STOP_WORDS` (entries in source order, the
source's duplicate entries included; `Set` membership and list membership
agree). -/
def CHINESE_STOP_WORDS : List String :=
  ["的", "了", "是", "在", "我", "有", "和", "就", "不", "人", "都", "一",
   "一个", "上", "也", "很", "到", "说", "要", "去", "你", "会", "着",
   "没有", "看", "好", "自己", "这", "那", "什么", "怎么", "如何",
   "为什么", "哪些", "哪个", "请", "能", "可以", "帮", "帮我", "告诉",
   "介绍", "关于", "以及", "或者", "并且", "之", "与", "及", "等", "其",
   "为", "以", "于", "而", "或", "但", "如", "若", "则", "因", "故",
   "所", "者", "也", "矣", "焉", "乎", "哉", "兮", "尔", "耳", "矣",
   "焉", "哉"]

/-- The constant `ENGLISH_STOP_WORDS` (entries in source order, duplicate
entries included). -/
def ENGLISH_STOP_WORDS : List String :=
  ["the", "a", "an", "is", "are", "was", "were", "be", "been", "being",
   "have", "has", "had", "do", "does", "did", "will", "would", "could",
   "should", "may", "might", "can", "must", "shall", "of", "to", "in",
   "for", "on", "with", "at", "by", "from", "as", "into", "through",
   "during", "before", "after", "above", "below", "between", "under",
   "again", "further", "then", "once", "here", "there", "when", "where",
   "why", "how", "all", "each", "few", "more", "most", "other", "some",
   "such", "no", "nor", "not", "only", "own", "same", "so", "than",
   "too", "very", "just", "and", "but", "if", "or", "because", "as",
   "until", "while", "about", "against", "between", "into", "through",
   "what", "which", "who", "whom", "this", "that", "these", "those",
   "am", "it", "its", "my", "your", "his", "her", "their", "our", "i",
   "me", "you", "he", "she", "they", "we", "us", "him", "them"]

/-- ASCII-charwise lowercasing (the inputs here are ASCII or CJK, on
which `toLowerCase` is the identity). -/
def lowerString (s : String) : String := String.mk (s.data.map Char.toLower)

/-- The method `TokenizerService.isStopWord`: the Chinese set is checked
against the word as written, the English set against its lowercase. -/
def isStopWord (word : String) : Bool :=
  CHINESE_STOP_WORDS.contains word || ENGLISH_STOP_WORDS.contains (lowerString word)

/-- Latin letters, the character class `[a-zA-Z]`. -/
def isLatinLetter (c : Char) : Bool :=
  ('a' ≤ c && c ≤ 'z') || ('A' ≤ c && c ≤ 'Z')

/-- CJK characters, the character class `[一-龥]`. -/
def isCJK (c : Char) : Bool :=
  c.val ≥ 0x4e00 && c.val ≤ 0x9fa5

/-- Accumulator loop extracting the maximal runs of characters satisfying
`p`, in order; models `text.match(/X+/g) || []`. -/
def runsByGo (p : Char → Bool) (cur : List Char) : List Char → List (List Char)
  | [] => if cur.isEmpty then [] else [cur.reverse]
  | c :: rest =>
      if p c then runsByGo p (c :: cur) rest
      else if cur.isEmpty then runsByGo p [] rest
      else cur.reverse :: runsByGo p [] rest

/-- Maximal runs of characters satisfying `p`. -/
def runsBy (p : Char → Bool) (s : List Char) : List (List Char) :=
  runsByGo p [] s

/-- The contiguous n-grams of lengths `1 .. min 4 |seg|` of a CJK
segment, outer loop over the length, inner loop over the start offset,
exactly as in `fallbackTokenize`. -/
def cjkNgrams (seg : List Char) : List String :=
  (List.range (min 4 seg.length)).flatMap fun l0 =>
    (List.range (seg.length - (l0 + 1) + 1)).map fun i =>
      String.mk ((seg.drop i).take (l0 + 1))

/-- The method `TokenizerService.fallbackTokenize`: lowercased Latin
words first, then per CJK segment its n-grams followed by the whole
segment when it has 1 to 4 characters. -/
def fallbackTokenize (text : List Char) : List String :=
  (runsBy isLatinLetter text).map (fun r => String.mk (r.map Char.toLower)) ++
    (runsBy isCJK text).flatMap (fun seg =>
      cjkNgrams seg ++
        (if 1 ≤ seg.length ∧ seg.length ≤ 4 then [String.mk seg] else []))

/-- Deduplication keeping the first occurrence, modelling
`[...new Set(processed)]`. -/
def eraseDupsFirstAux (seen : List String) : List String → List String
  | [] => []
  | a :: as =>
      if a ∈ seen then eraseDupsFirstAux seen as
      else a :: eraseDupsFirstAux (a :: seen) as

/-- Deduplication keeping the first occurrence. -/
def eraseDupsFirst (l : List String) : List String := eraseDupsFirstAux [] l

/-- The method `TokenizerService.postProcess`: optional stopword filter,
then the length bounds, then deduplication. -/
def postProcess (tokens : List String) (filterStopWords : Bool)
    (minWordLength maxWordLength : Nat) : List String :=
  let afterStop :=
    if filterStopWords then tokens.filter (fun t => !isStopWord t) else tokens
  let afterLen := afterStop.filter
    (fun t => minWordLength ≤ t.length && t.length ≤ maxWordLength)
  eraseDupsFirst afterLen

/-- Options of `TokenizerService.tokenize`, every field optional. -/
structure TokenizerOptions where
  filterStopWords : Option Bool := none
  minWordLength : Option Nat := none
  maxWordLength : Option Nat := none

/-- The whitespace characters relevant to `text.trim()` for the inputs
considered here (space, tab, newline, carriage return). -/
def isJsWhitespace (c : Char) : Bool :=
  c = ' ' || c = '\t' || c = '\n' || c = '\r'

/-- The method `TokenizerService.tokenize`.  The segmentation backend is
a parameter: it is jieba's `cut` when the optional jieba module loaded,
and `fallbackTokenize` otherwise (jieba is an external module; every
concrete evaluation below instantiates `seg := fallbackTokenize`).
Option defaults are `filterStopWords = true`, `minWordLength = 1`,
`maxWordLength = 50`; empty or whitespace-only input yields `[]`. -/
def tokenize (seg : List Char → List String) (text : List Char)
    (options : TokenizerOptions) : List String :=
  let filterStopWords := options.filterStopWords.getD true
  let minWordLength := options.minWordLength.getD 1
  let maxWordLength := options.maxWordLength.getD 50
  if (text.filter (fun c => !isJsWhitespace c)).isEmpty then []
  else postProcess (seg text) filterStopWords minWordLength maxWordLength

/-- The method `TokenizerService.extractKeywords`: tokenize with
`filterStopWords = true, minWordLength = 2`, count each token's
frequency in an insertion-ordered map, sort the entries by descending
count (stable), truncate to `maxKeywords` (default 10), return the
words. -/
def extractKeywords (seg : List Char → List String) (text : List Char)
    (maxKeywords : Nat := 10) : List String :=
  let tokens := tokenize seg text
    { filterStopWords := some true, minWordLength := some 2 }
  let frequency := tokens.foldl
    (fun m token => mapSet m token ((mapGet? m token).getD 0 + 1))
    ([] : List (String × Nat))
  ((sortByDesc (fun p => ((p.2 : ℚ))) frequency).take maxKeywords).map
    (fun p => p.1)

/-! ## BM25IndexService (`bm25-index.service.ts`) -/

/-- The document shape `BM25Document` (the free-form `metadata` record
carries no structure relevant to the claims and is omitted). -/
structure BM25Document where
  id : String
  content : String
  fileName : Option String := none
  preview : Option String := none
  deriving DecidableEq, Repr

/-- A document as stored in an elasticlunr index: the original fields
plus the token field produced at insertion time (the source joins the
tokens with spaces and elasticlunr splits them again; the tokens contain
no spaces, so the list is kept directly). -/
structure IndexedDoc where
  doc : BM25Document
  tokens : List String
  deriving DecidableEq, Repr

/-- The per-tenant record `IndexEntry` stored in `indexCache`.
`documentCount` is an integer counter maintained by the service itself
(it is not derived from the store and the source can drive it negative). -/
structure BM25IndexEntry where
  docs : List IndexedDoc
  documentCount : Int
  lastAccessed : Nat
  k1 : ℚ
  b : ℚ
  deriving DecidableEq, Repr

/-- The whole service state: `indexCache : Map<string, IndexEntry>`. -/
structure BM25State where
  indexCache : List (String × BM25IndexEntry)
  deriving DecidableEq, Repr

/-- The empty cache. -/
def BM25State.empty : BM25State := ⟨[]⟩

/-- The method `BM25IndexService.getIndexKey`. -/
def getIndexKey (userId : Int) : String := "user_" ++ toString userId

/-- The constant `IDLE_TIMEOUT` (30 minutes, in milliseconds). -/
def IDLE_TIMEOUT : Nat := 30 * 60 * 1000

/-- The interval of the repeating cleanup task started by the
constructor (5 minutes, in milliseconds). -/
def CLEANUP_INTERVAL : Nat := 5 * 60 * 1000

/-- Options of `buildIndex`. -/
structure BM25IndexOptions where
  k1 : Option ℚ := none
  b : Option ℚ := none
  deriving Repr

/-- Modelled from the external library elasticlunr: `Index.addDoc`
stores the document under its `id` ref (an existing ref is overwritten,
the store is keyed). -/
def storeAddDoc (docs : List IndexedDoc) (d : IndexedDoc) : List IndexedDoc :=
  docs.filter (fun e => e.doc.id ≠ d.doc.id) ++ [d]

/-- The method `BM25IndexService.buildIndex`: a fresh index from the
documents (each tokenized with the unified config
`filterStopWords = true, minWordLength = 1`), `documentCount` set to the
list length, `lastAccessed` set to now, BM25 parameters defaulted to
`k1 = 1.2`, `b = 0.75`; any existing entry for the tenant is replaced. -/
def buildIndex (tok : String → List String) (userId : Int)
    (documents : List BM25Document) (options : BM25IndexOptions) (now : Nat)
    (s : BM25State) : BM25State :=
  let k1 := options.k1.getD (6 / 5)
  let b := options.b.getD (3 / 4)
  let index := documents.foldl
    (fun acc d => storeAddDoc acc ⟨d, tok d.content⟩) []
  ⟨mapSet s.indexCache (getIndexKey userId)
    { docs := index, documentCount := documents.length, lastAccessed := now,
      k1 := k1, b := b }⟩

/-- The method `BM25IndexService.addDocument`: build a fresh index when
none exists, otherwise insert incrementally, increment `documentCount`,
touch `lastAccessed`. -/
def addDocument (tok : String → List String) (userId : Int)
    (document : BM25Document) (now : Nat) (s : BM25State) : BM25State :=
  match mapGet? s.indexCache (getIndexKey userId) with
  | none => buildIndex tok userId [document] {} now s
  | some entry =>
      ⟨mapSet s.indexCache (getIndexKey userId)
        { entry with
          docs := storeAddDoc entry.docs ⟨document, tok document.content⟩,
          documentCount := entry.documentCount + 1,
          lastAccessed := now }⟩

/-- The method `BM25IndexService.removeDocument`: a no-op when the
tenant has no index; otherwise `removeDocByRef` (which silently does
nothing when the ref is absent) followed by an unconditional
`documentCount--` and a `lastAccessed` touch. -/
def removeDocument (userId : Int) (documentId : String) (now : Nat)
    (s : BM25State) : BM25State :=
  match mapGet? s.indexCache (getIndexKey userId) with
  | none => s
  | some entry =>
      ⟨mapSet s.indexCache (getIndexKey userId)
        { entry with
          docs := entry.docs.filter (fun e => e.doc.id ≠ documentId),
          documentCount := entry.documentCount - 1,
          lastAccessed := now }⟩

/-- One scored search hit as returned by elasticlunr. -/
structure ElasticHit where
  ref : String
  score : ℚ
  doc : IndexedDoc
  deriving DecidableEq, Repr

/-- Modelled from the external library elasticlunr: `Index.search` with
`bool: "OR", expand: false` returns, in descending score order, a hit
for every STORED document that contains at least one query token; the
exact BM25 value does not matter to the claims below and is stood in by
the matching-token count.  What the claims rely on is that every hit
comes from the document store. -/
def elasticSearchHits (entry : BM25IndexEntry) (queryTokens : List String) :
    List ElasticHit :=
  sortByDesc (fun h => h.score)
    ((entry.docs.filter
        (fun d => queryTokens.any (fun t => d.tokens.contains t))).map
      (fun d =>
        { ref := d.doc.id,
          score := ((queryTokens.filter (fun t => d.tokens.contains t)).length : ℚ),
          doc := d }))

/-- The result shape `BM25SearchResult`. -/
structure BM25SearchResult where
  id : String
  score : ℚ
  content : String
  fileName : Option String
  preview : Option String
  deriving DecidableEq, Repr

/-- Formatting of one elasticlunr hit into a `BM25SearchResult`
(the `formattedResults` loop body of `search`). -/
def formatHit (h : ElasticHit) : BM25SearchResult :=
  { id := h.doc.doc.id, score := h.score, content := h.doc.doc.content,
    fileName := h.doc.doc.fileName, preview := h.doc.doc.preview }

/-- The method `BM25IndexService.search`: no index means an empty result
(not an error); otherwise touch `lastAccessed`, tokenize the query with
the unified config, return early on an empty token list, and format the
top `limit` hits. -/
def bm25Search (tok : String → List String) (userId : Int) (query : String)
    (limit : Nat) (now : Nat) (s : BM25State) :
    List BM25SearchResult × BM25State :=
  match mapGet? s.indexCache (getIndexKey userId) with
  | none => ([], s)
  | some entry =>
      let s' : BM25State :=
        ⟨mapSet s.indexCache (getIndexKey userId)
          { entry with lastAccessed := now }⟩
      let queryTokens := tok query
      if queryTokens.isEmpty then ([], s')
      else
        (((elasticSearchHits entry queryTokens).take limit).map formatHit, s')

/-- The method `BM25IndexService.getScoresForDocuments`: like `search`
but the hits are filtered to the supplied id set and returned as an
id-to-score map (ids that matched nothing are simply absent). -/
def getScoresForDocuments (tok : String → List String) (userId : Int)
    (query : String) (documentIds : List String) (now : Nat) (s : BM25State) :
    List (String × ℚ) × BM25State :=
  match mapGet? s.indexCache (getIndexKey userId) with
  | none => ([], s)
  | some entry =>
      let s' : BM25State :=
        ⟨mapSet s.indexCache (getIndexKey userId)
          { entry with lastAccessed := now }⟩
      let queryTokens := tok query
      if queryTokens.isEmpty then ([], s')
      else
        (((elasticSearchHits entry queryTokens).filter
            (fun h => documentIds.contains h.ref)).map
          (fun h => (h.ref, h.score)),
         s')

/-- The method `BM25IndexService.clearIndex`. -/
def clearIndex (userId : Int) (s : BM25State) : BM25State :=
  ⟨s.indexCache.filter (fun kv => kv.1 ≠ getIndexKey userId)⟩

/-- The method `BM25IndexService.hasIndex`.  The `now` argument records
the time of the call; the source never reads the clock here and the
state is returned unchanged — the method only tests cache membership. -/
def bm25HasIndex (userId : Int) (_now : Nat) (s : BM25State) :
    Bool × BM25State :=
  ((mapGet? s.indexCache (getIndexKey userId)).isSome, s)

/-- The method `BM25IndexService.getDocumentCount`:
`entry?.documentCount ?? 0`.  As with `hasIndex`, the clock is never
read and the state is returned unchanged. -/
def getDocumentCount (userId : Int) (_now : Nat) (s : BM25State) :
    Int × BM25State :=
  (((mapGet? s.indexCache (getIndexKey userId)).map
      (fun e => e.documentCount)).getD 0, s)

/-- The sweep body `cleanupIdleIndexes`, run by the repeating task every
`CLEANUP_INTERVAL` milliseconds: delete every entry with
`now - lastAccessed > IDLE_TIMEOUT` (truncated subtraction agrees with
the JS comparison: a negative difference is never `> IDLE_TIMEOUT`). -/
def cleanupIdleIndexes (now : Nat) (s : BM25State) : BM25State :=
  ⟨s.indexCache.filter (fun kv => !(decide (now - kv.2.lastAccessed > IDLE_TIMEOUT)))⟩

/-- Convenience projection: the `lastAccessed` field of a tenant's
entry, when present. -/
def lastAccessedOf (s : BM25State) (userId : Int) : Option Nat :=
  (mapGet? s.indexCache (getIndexKey userId)).map (fun e => e.lastAccessed)

/-! ## Supporting lemmas -/

theorem mapGet?_mapSet_self {κ β : Type} [DecidableEq κ]
    (m : List (κ × β)) (k : κ) (v : β) : mapGet? (mapSet m k v) k = some v := by
  induction m with
  | nil => simp [mapSet, mapGet?]
  | cons p rest ih =>
    obtain ⟨k', v'⟩ := p
    by_cases hk : k' = k
    · simp [mapSet, mapGet?, hk]
    · simp [mapSet, mapGet?, hk, ih]

theorem mem_mapSet {κ β : Type} [DecidableEq κ]
    (m : List (κ × β)) (k : κ) (v : β) (x : κ × β)
    (hx : x ∈ mapSet m k v) : x = (k, v) ∨ x ∈ m := by
  induction m with
  | nil => simpa [mapSet] using hx
  | cons p rest ih =>
    obtain ⟨k', v'⟩ := p
    by_cases hk : k' = k
    · rw [mapSet, if_pos hk] at hx
      rcases List.mem_cons.mp hx with rfl | hx
      · exact Or.inl rfl
      · exact Or.inr (List.mem_cons_of_mem _ hx)
    · rw [mapSet, if_neg hk] at hx
      rcases List.mem_cons.mp hx with rfl | hx
      · exact Or.inr (List.mem_cons_self _ _)
      · rcases ih hx with h | h
        · exact Or.inl h
        · exact Or.inr (List.mem_cons_of_mem _ h)

/-! ## Shared concrete fixtures -/

/-- A sample fused result with a finite positive hybrid score. -/
def sampleResult : SearchResult :=
  { id := 1, fileName := "f", content := "c", preview := "p", size := 1,
    type := "t", similarity := 9 / 10, keywordScore := 1,
    hybridScore := some (1 / 2) }

/-- The unified tokenizer call
`tokenizerService.tokenize(text, TOKENIZER_CONFIG)` with the fallback
segmentation backend (`filterStopWords = true, minWordLength = 1`). -/
def tokUnified (s : String) : List String :=
  tokenize fallbackTokenize s.data
    { filterStopWords := some true, minWordLength := some 1 }

/-- A sample indexed document. -/
def sampleDoc : BM25Document := { id := "d1", content := "hello zebra" }

/-- A tenant-7 state built at time 0 holding `sampleDoc`. -/
def builtAt0 : BM25State := buildIndex tokUnified 7 [sampleDoc] {} 0 BM25State.empty

/-- A tenant-7 state built at time 0 from an empty document list. -/
def builtEmptyAt0 : BM25State := buildIndex tokUnified 7 [] {} 0 BM25State.empty

/-! ## Claims -/

/-- C1: the spec says fusion assigns
`hybridScore = Σ weight_i / (k + rank_i)` with `k = rrfK` defaulting to
60, and in particular an item at rank 1 in both lists gets
`vectorWeight/(k+1) + keywordWeight/(k+1)`.  The code cannot do this:
the constructor never reads `options.rrfK` (first conjunct) and the
class declares no `rrfK` field, so the read `this.rrfK` inside
`mergeResultsWithRRF` yields `undefined` (`thisRrfK = none`) — with
default weights, the item at rank 1 in both lists comes out with
`hybridScore = NaN`, not `0.7/61 + 0.3/61`. -/
theorem rrfK_never_assigned_hybridScore_NaN :
    (∀ (options : HybridRetrieverOptions) (k : ℚ),
        mkConfig { options with rrfK := some k } = mkConfig options) ∧
    thisRrfK = none ∧
    (mergeResultsWithRRF (mkConfig {})
        [{ id := 1, content := "doc", similarity := 9 / 10 }]
        [{ id := 1, fileName := "f", content := "doc", preview := "p",
           size := 1, type := "t", matchCount := 1 }]).map
      (fun r => r.hybridScore) = [none] ∧
    ([none] : List (Option ℚ)) ≠ [some (7 / 10 * (1 / 61) + 3 / 10 * (1 / 61))] := by
  refine ⟨fun options k => rfl, rfl, by decide, by decide⟩

set_option maxRecDepth 20000 in
/-- C2: the spec's vector search filters by the `minSimilarity` floor
and orders by similarity.  The SQL text actually sent (source lines
278-284) never references the bind parameter `$3` even though four
parameters — including `minSimilarity` as the third — are supplied, and
in place of the floor condition the statement contains a stray line of
TypeScript; the malformed statement makes the store error and the
`catch` branch returns the empty list (`vectorSearchRun (.error ()) = []`),
never `[A, B]`. -/
theorem vectorSearchSQL_floor_condition_corrupted :
    refsParam vectorSearchSQL.data '1' = true ∧
    refsParam vectorSearchSQL.data '2' = true ∧
    refsParam vectorSearchSQL.data '4' = true ∧
    refsParam vectorSearchSQL.data '3' = false ∧
    vectorSearchParamCount = 4 ∧
    charsContain "const keywords = this.extractKeywords(query);".data
      vectorSearchSQL.data = true ∧
    charsContain ">= $3".data vectorSearchSQL.data = false ∧
    vectorSearchRun (.error ()) = [] := by
  refine ⟨by decide, by decide, by decide, by decide, rfl, by decide, by decide, rfl⟩

/-- C5: when BM25 reranking runs, the stage leaves the fused results
unchanged whenever the tenant has no lexical index, and any error raised
by the score lookup inside the stage is caught, returning the
pre-rerank fused results unchanged (the stage is total: it never
propagates a failure to the surrounding query). -/
theorem rerank_skips_without_index_and_on_error
    (w : ℚ) (hasIdx : Bool) (outcome : BM25ScoresOutcome)
    (results : List SearchResult) :
    (hasIdx = false → rerankWithBM25 w hasIdx outcome results = results) ∧
    rerankWithBM25 w hasIdx (.error ()) results = results := by
  constructor
  · rintro rfl
    by_cases h : results.isEmpty <;> simp [rerankWithBM25, h]
  · by_cases h : results.isEmpty
    · simp [rerankWithBM25, h]
    · cases hasIdx <;> simp [rerankWithBM25, h]

/-- Witness for C5 at a concrete input: no index, and an error outcome. -/
theorem rerank_skips_witness :
    rerankWithBM25 (3 / 10) false (.ok []) [sampleResult] = [sampleResult] ∧
    rerankWithBM25 (3 / 10) true (.error ()) [sampleResult] = [sampleResult] :=
  ⟨(rerank_skips_without_index_and_on_error (3 / 10) false (.ok [])
      [sampleResult]).1 rfl,
   (rerank_skips_without_index_and_on_error (3 / 10) true (.error ())
      [sampleResult]).2⟩

/-- C10: for a tenant that has an index and an id not present in it,
`removeDocument` still decrements the stored `documentCount`
(`removeDocByRef` silently does nothing for an absent ref, after which
`entry.documentCount--` runs unconditionally), so `getDocumentCount` can
fall below the true number of indexed documents and even become
negative. -/
theorem removeDocument_decrements_for_absent_id
    (uid : Int) (d : String) (now now' : Nat) (s : BM25State)
    (entry : BM25IndexEntry)
    (h1 : mapGet? s.indexCache (getIndexKey uid) = some entry)
    (_h2 : ∀ e ∈ entry.docs, e.doc.id ≠ d) :
    (getDocumentCount uid now' (removeDocument uid d now s)).1 =
      (getDocumentCount uid now' s).1 - 1 := by
  simp [removeDocument, h1, getDocumentCount, mapGet?_mapSet_self]

/-- Witness for C10: an index built from zero documents, then a removal
of an id that was never added, drives the count to `-1`. -/
theorem removeDocument_decrements_witness :
    (getDocumentCount 7 9 (removeDocument 7 "ghost" 5 builtEmptyAt0)).1 =
      (getDocumentCount 7 9 builtEmptyAt0).1 - 1 ∧
    (getDocumentCount 7 9 builtEmptyAt0).1 - 1 = -1 :=
  ⟨removeDocument_decrements_for_absent_id 7 "ghost" 5 9 builtEmptyAt0
      { docs := [], documentCount := 0, lastAccessed := 0, k1 := 6 / 5, b := 3 / 4 }
      (by rfl) (by decide),
   by decide⟩

/-- C6 counterexample: the claim says every read — `hasIndex` included —
updates the tenant's `lastAccessed`.  In the source `hasIndex` only
tests cache membership: called at time 1000000 on an index last touched
at time 0, it returns `true`, leaves the state unchanged with
`lastAccessed = 0` (not 1000000) — and the sweep at time 1800001
consequently evicts the index even though it was "read" less than 30
minutes earlier. -/
theorem hasIndex_does_not_touch_lastAccessed :
    (bm25HasIndex 7 1000000 builtAt0).1 = true ∧
    (bm25HasIndex 7 1000000 builtAt0).2 = builtAt0 ∧
    lastAccessedOf builtAt0 7 = some 0 ∧
    (some 0 : Option Nat) ≠ some 1000000 ∧
    (cleanupIdleIndexes 1800001 (bm25HasIndex 7 1000000 builtAt0).2).indexCache = [] := by
  refine ⟨rfl, rfl, rfl, by decide, by rfl⟩

/-- C6 as amended: `search`, `getScoresForDocuments`, `buildIndex`,
`addDocument` and `removeDocument` update the tenant's `lastAccessed`
to the time of the call (the first three and the last whenever the
tenant has an entry; `buildIndex` and `addDocument` unconditionally),
whereas the reads `hasIndex` and `getDocumentCount` leave the state —
and hence every `lastAccessed` — unchanged; the sweep (scheduled every
`CLEANUP_INTERVAL` = 5 minutes) removes exactly those entries whose
`lastAccessed` lies more than `IDLE_TIMEOUT` = 30 minutes before its
run time. -/
theorem lastAccessed_updates_and_sweep
    (tok : String → List String) (uid : Int) (q : String) (d : BM25Document)
    (did : String) (ids : List String) (docs : List BM25Document)
    (opts : BM25IndexOptions) (lim now : Nat) (s : BM25State)
    (entry : BM25IndexEntry) :
    (mapGet? s.indexCache (getIndexKey uid) = some entry →
        lastAccessedOf (bm25Search tok uid q lim now s).2 uid = some now) ∧
    (mapGet? s.indexCache (getIndexKey uid) = some entry →
        lastAccessedOf (getScoresForDocuments tok uid q ids now s).2 uid = some now) ∧
    lastAccessedOf (buildIndex tok uid docs opts now s) uid = some now ∧
    lastAccessedOf (addDocument tok uid d now s) uid = some now ∧
    (mapGet? s.indexCache (getIndexKey uid) = some entry →
        lastAccessedOf (removeDocument uid did now s) uid = some now) ∧
    (bm25HasIndex uid now s).2 = s ∧
    (getDocumentCount uid now s).2 = s ∧
    (∀ (key : String) (e : BM25IndexEntry),
        (key, e) ∈ (cleanupIdleIndexes now s).indexCache ↔
          (key, e) ∈ s.indexCache ∧ ¬ (now - e.lastAccessed > IDLE_TIMEOUT)) := by
  refine ⟨?_, ?_, ?_, ?_, ?_, rfl, rfl, ?_⟩
  · intro h
    by_cases ht : (tok q).isEmpty <;>
      simp [bm25Search, h, ht, lastAccessedOf, mapGet?_mapSet_self]
  · intro h
    by_cases ht : (tok q).isEmpty <;>
      simp [getScoresForDocuments, h, ht, lastAccessedOf, mapGet?_mapSet_self]
  · simp [buildIndex, lastAccessedOf, mapGet?_mapSet_self]
  · cases hg : mapGet? s.indexCache (getIndexKey uid) <;>
      simp [addDocument, hg, buildIndex, lastAccessedOf, mapGet?_mapSet_self]
  · intro h
    simp [removeDocument, h, lastAccessedOf, mapGet?_mapSet_self]
  · intro key e
    simp [cleanupIdleIndexes, List.mem_filter]

/-- Witness for C6's amended statement: all hypotheses discharged on the
concrete tenant-7 state built at time 0, with the call time 42. -/
theorem lastAccessed_updates_witness :
    lastAccessedOf (bm25Search tokUnified 7 "hello" 5 42 builtAt0).2 7 = some 42 ∧
    lastAccessedOf (removeDocument 7 "d1" 42 builtAt0) 7 = some 42 :=
  ⟨(lastAccessed_updates_and_sweep tokUnified 7 "hello" sampleDoc "d1" []
      [] {} 5 42 builtAt0
      { docs := [⟨sampleDoc, tokUnified sampleDoc.content⟩], documentCount := 1,
        lastAccessed := 0, k1 := 6 / 5, b := 3 / 4 }).1 (by rfl),
   (lastAccessed_updates_and_sweep tokUnified 7 "hello" sampleDoc "d1" []
      [] {} 5 42 builtAt0
      { docs := [⟨sampleDoc, tokUnified sampleDoc.content⟩], documentCount := 1,
        lastAccessed := 0, k1 := 6 / 5, b := 3 / 4 }).2.2.2.2.1 (by rfl)⟩

/-- C7: after `addDocument(t, D)` followed by `removeDocument(t, D.id)`,
no search for any query can return `D.id` (the document is gone from the
store the hits are drawn from), and `getDocumentCount` returns to its
pre-add value (the increment and the decrement cancel; when no index
existed, the fresh one ends at count 0, matching the `?? 0` read). -/
theorem add_then_remove_restores_index
    (tok : String → List String) (uid : Int) (D : BM25Document) (q : String)
    (lim now1 now2 now3 now4 : Nat) (s : BM25State) :
    (∀ r ∈ (bm25Search tok uid q lim now3
        (removeDocument uid D.id now2 (addDocument tok uid D now1 s))).1,
      r.id ≠ D.id) ∧
    (getDocumentCount uid now4
        (removeDocument uid D.id now2 (addDocument tok uid D now1 s))).1 =
      (getDocumentCount uid now4 s).1 := by
  have hmain : ∀ (e : BM25IndexEntry),
      (∀ dd ∈ e.docs, dd.doc.id ≠ D.id) →
      ∀ r ∈ ((elasticSearchHits e (tok q)).take lim).map formatHit,
        r.id ≠ D.id := by
    intro e he r hr
    rcases List.mem_map.mp hr with ⟨h, hh, rfl⟩
    have hh' := List.mem_of_mem_take hh
    rw [elasticSearchHits, mem_sortByDesc] at hh'
    rcases List.mem_map.mp hh' with ⟨dd, hdd, rfl⟩
    exact he dd (List.mem_filter.mp hdd).1

  have hfilter : ∀ (l : List IndexedDoc),
      ∀ dd ∈ l.filter (fun e => decide (e.doc.id ≠ D.id)), dd.doc.id ≠ D.id := by
    intro l dd h
    simpa using (List.mem_filter.mp h).2
  cases hg : mapGet? s.indexCache (getIndexKey uid) with
  | none =>
      constructor
      · intro r hr
        simp only [addDocument, hg, buildIndex, removeDocument,
          mapGet?_mapSet_self, bm25Search] at hr
        by_cases ht : (tok q).isEmpty
        · simp [ht] at hr
        · simp only [ht, Bool.false_eq_true, if_false] at hr
          exact hmain _ (hfilter _) r hr
      · simp [addDocument, hg, buildIndex, removeDocument, getDocumentCount,
          mapGet?_mapSet_self]
  | some entry =>
      constructor
      · intro r hr
        simp only [addDocument, hg, removeDocument, mapGet?_mapSet_self,
          bm25Search] at hr
        by_cases ht : (tok q).isEmpty
        · simp [ht] at hr
        · simp only [ht, Bool.false_eq_true, if_false] at hr
          exact hmain _ (hfilter _) r hr
      · simp [addDocument, hg, removeDocument, getDocumentCount,
          mapGet?_mapSet_self]

theorem jsAdd_eq_none (x y : Option ℚ) (h : x = none ∨ y = none) :
    jsAdd x y = none := by
  rcases h with rfl | rfl
  · rfl
  · cases x <;> rfl

theorem rrfVectorPass_vectorScore_none (cfg : HybridRetrieverConfig)
    (v : List VectorSearchResult) :
    ∀ kv ∈ rrfVectorPass cfg thisRrfK v, kv.2.vectorScore = none := by
  rw [rrfVectorPass]
  generalize v.enum = l
  have main : ∀ (l : List (Nat × VectorSearchResult)) (m0 : List (Int × RRFAcc)),
      (∀ kv ∈ m0, kv.2.vectorScore = none) →
      ∀ kv ∈ l.foldl (fun m p =>
          mapSet m p.2.id
            { result :=
                { id := p.2.id, fileName := "", content := p.2.content,
                  preview := "", size := 0, type := "",
                  similarity := p.2.similarity, keywordScore := 0,
                  hybridScore := some 0 }
              vectorRank := some (p.1 + 1)
              keywordRank := none
              vectorScore := jsMul (rrfScoreAt thisRrfK p.1) cfg.vectorWeight
              keywordScore := some 0 }) m0,
        kv.2.vectorScore = none := by
    intro l
    induction l with
    | nil => intro m0 h0 kv hkv; exact h0 kv hkv
    | cons p rest ih =>
      intro m0 h0 kv hkv
      refine ih _ ?_ kv hkv
      intro x hx
      rcases mem_mapSet _ _ _ _ hx with rfl | hx
      · rfl
      · exact h0 x hx
  intro kv hkv
  exact main l [] (by intro x hx; cases hx) kv hkv

theorem rrfKeywordPass_score_none (cfg : HybridRetrieverConfig)
    (m0 : List (Int × RRFAcc)) (k : List KeywordSearchResult)
    (h0 : ∀ kv ∈ m0, kv.2.vectorScore = none) :
    ∀ kv ∈ rrfKeywordPass cfg thisRrfK m0 k,
      kv.2.vectorScore = none ∨ kv.2.keywordScore = none := by
  rw [rrfKeywordPass]
  generalize k.enum = l
  have main : ∀ (l : List (Nat × KeywordSearchResult)) (m : List (Int × RRFAcc)),
      (∀ kv ∈ m, kv.2.vectorScore = none ∨ kv.2.keywordScore = none) →
      ∀ kv ∈ l.foldl (fun m p =>
          match mapGet? m p.2.id with
          | some existing =>
              mapSet m p.2.id
                { existing with
                  keywordRank := some (p.1 + 1)
                  keywordScore := jsMul (rrfScoreAt thisRrfK p.1) cfg.keywordWeight
                  result :=
                    { existing.result with
                      fileName := p.2.fileName, preview := p.2.preview,
                      size := p.2.size, type := p.2.type,
                      keywordScore := (p.2.matchCount : ℚ) } }
          | none =>
              mapSet m p.2.id
                { result :=
                    { id := p.2.id, fileName := p.2.fileName,
                      content := p.2.content, preview := p.2.preview,
                      size := p.2.size, type := p.2.type,
                      similarity := 0, keywordScore := (p.2.matchCount : ℚ),
                      hybridScore := some 0 }
                  vectorRank := none
                  keywordRank := some (p.1 + 1)
                  vectorScore := some 0
                  keywordScore := jsMul (rrfScoreAt thisRrfK p.1) cfg.keywordWeight }) m,
        kv.2.vectorScore = none ∨ kv.2.keywordScore = none := by
    intro l
    induction l with
    | nil => intro m hm kv hkv; exact hm kv hkv
    | cons p rest ih =>
      intro m hm kv hkv
      refine ih _ ?_ kv hkv
      intro x hx
      cases hg : mapGet? m p.2.id with
      | some existing =>
          simp only [hg] at hx
          rcases mem_mapSet _ _ _ _ hx with rfl | hx
          · exact Or.inr rfl
          · exact hm x hx
      | none =>
          simp only [hg] at hx
          rcases mem_mapSet _ _ _ _ hx with rfl | hx
          · exact Or.inr rfl
          · exact hm x hx
  intro kv hkv
  exact main l m0 (fun kv hkv => Or.inl (h0 kv hkv)) kv hkv

/-- Every hybrid score the fusion produces is `NaN` (see C1): the two
passes propagate the unassigned `this.rrfK` into every entry. -/
theorem rrfMergedPreSort_hybridScore_none (cfg : HybridRetrieverConfig)
    (v : List VectorSearchResult) (k : List KeywordSearchResult) :
    ∀ r ∈ rrfMergedPreSort cfg v k, r.hybridScore = none := by
  intro r hr
  rw [rrfMergedPreSort] at hr
  rcases List.mem_map.mp hr with ⟨kv, hkv, rfl⟩
  exact jsAdd_eq_none _ _
    (rrfKeywordPass_score_none cfg _ k
      (rrfVectorPass_vectorScore_none cfg v) kv hkv)

/-- C3 counterexample: the claim says ties are broken by id ascending.
With equal weights, a vector list holding only id 2 and a keyword list
holding only id 1 (a tie under the spec's scoring: both ranked 1 with
weight 1/2), the fused output is `[2, 1]`, not the id-ascending
`[1, 2]`: the comparator reports a tie (every score is `NaN`, coerced to
0) and the stable sort keeps map-insertion order — vector results before
keyword-only results. -/
theorem merge_tie_not_broken_by_id :
    (mergeResultsWithRRF
        (mkConfig { vectorWeight := some (1 / 2), keywordWeight := some (1 / 2) })
        [{ id := 2, content := "b", similarity := 1 / 2 }]
        [{ id := 1, fileName := "f", content := "a", preview := "p",
           size := 1, type := "t", matchCount := 1 }]).map (fun r => r.id) =
      [2, 1] ∧
    ([2, 1] : List Int) ≠ [1, 2] := by
  refine ⟨by decide, by decide⟩

/-- C3 as amended: the fused list is the score-map insertion order
(vector-derived entries in vector-rank order, then keyword-only entries
in keyword-rank order) truncated to `limit` — the `.sort` is the
identity here because every `hybridScore` is `NaN` (the unassigned
`this.rrfK`, see C1) and the comparator coerces `NaN` to 0, a tie
everywhere; the output is therefore sorted (trivially) by descending
coerced score, has at most `limit` entries, and — the embedding being a
pure function — repeated calls on fixed inputs give the same ordering. -/
theorem merge_is_insertion_order_truncated (cfg : HybridRetrieverConfig)
    (v : List VectorSearchResult) (k : List KeywordSearchResult) :
    mergeResultsWithRRF cfg v k = (rrfMergedPreSort cfg v k).take cfg.limit ∧
    (∀ r ∈ mergeResultsWithRRF cfg v k, r.hybridScore = none) ∧
    (mergeResultsWithRRF cfg v k).Pairwise
      (fun a b => jsOr0 b.hybridScore ≤ jsOr0 a.hybridScore) ∧
    (mergeResultsWithRRF cfg v k).length ≤ cfg.limit := by
  have hall : ∀ r : SearchResult, r ∈ rrfMergedPreSort cfg v k → jsOr0 r.hybridScore = 0 := by
    intro r hr
    rw [rrfMergedPreSort_hybridScore_none cfg v k r hr]
    rfl
  have hsort : sortByDesc (fun r => jsOr0 r.hybridScore)
      (rrfMergedPreSort cfg v k) = rrfMergedPreSort cfg v k :=
    sortByDesc_all_eq _ 0 _ hall
  have heq : mergeResultsWithRRF cfg v k =
      (rrfMergedPreSort cfg v k).take cfg.limit := by
    rw [mergeResultsWithRRF, hsort]
  refine ⟨heq, ?_, ?_, ?_⟩
  · intro r hr
    rw [heq] at hr
    exact rrfMergedPreSort_hybridScore_none cfg v k r (List.mem_of_mem_take hr)
  · exact List.Pairwise.sublist (List.take_sublist _ _)
      (pairwise_sortByDesc (fun r : SearchResult => jsOr0 r.hybridScore)
        (rrfMergedPreSort cfg v k))
  · rw [heq]
    exact List.length_take_le _ _

/-- C4: whenever the BM25 rerank stage runs on a result set (an index
exists and the score lookup succeeds), every resulting `finalScore` —
`(hybridScore/maxRRF)*(1-bm25Weight) + (bm25Score/maxBM25)*bm25Weight`
with both maxima floored at `ε = 0.001` — lies in `[0, 1]`.  The
hypotheses record what holds of every set the pipeline feeds in: a
blend weight within `[0, 1]` (default 0.3) and non-negative incoming
scores (RRF scores and elasticlunr BM25 scores are never negative, and
a `NaN` hybrid score coerces to 0). -/
theorem rerank_finalScore_in_unit_interval
    (w : ℚ) (scores : List (String × ℚ)) (results : List SearchResult)
    (hw0 : 0 ≤ w) (hw1 : w ≤ 1)
    (hres : ∀ r ∈ results, 0 ≤ jsOr0 r.hybridScore)
    (hsc : ∀ p ∈ scores, 0 ≤ p.2) :
    ∀ r ∈ rerankWithBM25 w true (.ok scores) results,
      ∃ v, r.hybridScore = some v ∧ 0 ≤ v ∧ v ≤ 1 := by
  intro r hr
  by_cases he : results.isEmpty
  · rw [rerankWithBM25, if_pos he] at hr
    rw [List.isEmpty_iff.mp he] at hr
    cases hr
  · rw [rerankWithBM25, if_neg he] at hr
    simp only [Bool.not_true, Bool.false_eq_true, if_false] at hr
    rw [mem_sortByDesc] at hr
    rcases List.mem_map.mp hr with ⟨x, hx, rfl⟩
    refine ⟨_, rfl, ?_, ?_⟩ <;>
    · have hmaxR : (0 : ℚ) < listMaxQ (1 / 1000)
          (results.map (fun r => jsOr0 r.hybridScore)) :=
        lt_of_lt_of_le (by norm_num) (floor_le_listMaxQ _ _)
      have hmaxB : (0 : ℚ) < listMaxQ (1 / 1000) (scores.map (fun p => p.2)) :=
        lt_of_lt_of_le (by norm_num) (floor_le_listMaxQ _ _)
      have ha0 : 0 ≤ jsOr0 x.hybridScore := hres x hx
      have ha1 : jsOr0 x.hybridScore ≤ listMaxQ (1 / 1000)
          (results.map (fun r => jsOr0 r.hybridScore)) :=
        le_listMaxQ_of_mem _ _ _
          (List.mem_map_of_mem (fun r => jsOr0 r.hybridScore) hx)
      have hb0 : 0 ≤ (mapGet? scores (toString x.id)).getD 0 := by
        cases hg : mapGet? scores (toString x.id) with
        | none => simp
        | some v =>
            simpa using hsc _ (mapGet?_of_mem_value _ _ _ hg)
      have hb1 : (mapGet? scores (toString x.id)).getD 0 ≤
          listMaxQ (1 / 1000) (scores.map (fun p => p.2)) := by
        cases hg : mapGet? scores (toString x.id) with
        | none =>
            simpa using le_of_lt hmaxB
        | some v =>
            simpa using le_listMaxQ_of_mem _ _ _
              (List.mem_map_of_mem (fun p => p.2)
                (mapGet?_of_mem_value _ _ _ hg))
      have hnr0 : 0 ≤ jsOr0 x.hybridScore / listMaxQ (1 / 1000)
          (results.map (fun r => jsOr0 r.hybridScore)) :=
        div_nonneg ha0 (le_of_lt hmaxR)
      have hnr1 : jsOr0 x.hybridScore / listMaxQ (1 / 1000)
          (results.map (fun r => jsOr0 r.hybridScore)) ≤ 1 :=
        (div_le_one hmaxR).mpr ha1
      have hnb0 : 0 ≤ (mapGet? scores (toString x.id)).getD 0 /
          listMaxQ (1 / 1000) (scores.map (fun p => p.2)) :=
        div_nonneg hb0 (le_of_lt hmaxB)
      have hnb1 : (mapGet? scores (toString x.id)).getD 0 /
          listMaxQ (1 / 1000) (scores.map (fun p => p.2)) ≤ 1 :=
        (div_le_one hmaxB).mpr hb1
      nlinarith [hnr0, hnr1, hnb0, hnb1, hw0, hw1]

/-- Witness for C4 at a concrete input: one result with hybrid score
1/2, a BM25 score of 2 for its id, default weight 0.3; the stage yields
`finalScore = 1`, and the theorem places it in `[0, 1]`. -/
theorem rerank_finalScore_witness :
    ∃ v, ({ sampleResult with hybridScore := some 1 } : SearchResult).hybridScore
        = some v ∧ 0 ≤ v ∧ v ≤ 1 := by
  have hmem : ({ sampleResult with hybridScore := some 1 } : SearchResult) ∈
      rerankWithBM25 (3 / 10) true (.ok [("1", 2)]) [sampleResult] := by
    have : rerankWithBM25 (3 / 10) true (.ok [("1", 2)]) [sampleResult] =
        [{ sampleResult with hybridScore := some 1 }] := by
      rw [rerankWithBM25]
      simp only [List.isEmpty_cons, Bool.false_eq_true, if_false,
        Bool.not_true, List.map_cons, List.map_nil]
      have ht : toString (1 : Int) = "1" := rfl
      norm_num [listMaxQ, sampleResult, jsOr0, mapGet?, sortByDesc,
        insertByDesc, ht]
    rw [this]
    exact List.mem_singleton_self _
  exact rerank_finalScore_in_unit_interval (3 / 10) [("1", 2)] [sampleResult]
    (by norm_num) (by norm_num)
    (by
      intro r hr
      rw [List.mem_singleton] at hr
      subst hr
      norm_num [sampleResult, jsOr0])
    (by
      intro p hp
      rw [List.mem_singleton] at hp
      subst hp
      norm_num)
    _ hmem

theorem not_mem_seen_of_mem_eraseDupsFirstAux
    (l seen : List String) (x : String)
    (hx : x ∈ eraseDupsFirstAux seen l) : x ∉ seen := by
  induction l generalizing seen with
  | nil => cases hx
  | cons a as ih =>
    by_cases ha : a ∈ seen
    · rw [eraseDupsFirstAux, if_pos ha] at hx
      exact ih seen hx
    · rw [eraseDupsFirstAux, if_neg ha] at hx
      rcases List.mem_cons.mp hx with rfl | hx
      · exact ha
      · intro hmem
        exact ih (a :: seen) hx (List.mem_cons_of_mem a hmem)

theorem nodup_eraseDupsFirstAux (l seen : List String) :
    (eraseDupsFirstAux seen l).Nodup := by
  induction l generalizing seen with
  | nil => exact List.nodup_nil
  | cons a as ih =>
    by_cases ha : a ∈ seen
    · rw [eraseDupsFirstAux, if_pos ha]
      exact ih seen
    · rw [eraseDupsFirstAux, if_neg ha]
      refine List.nodup_cons.mpr ⟨?_, ih (a :: seen)⟩
      intro hmem
      exact not_mem_seen_of_mem_eraseDupsFirstAux as (a :: seen) a hmem
        (List.mem_cons_self a seen)

theorem nodup_eraseDupsFirst (l : List String) : (eraseDupsFirst l).Nodup :=
  nodup_eraseDupsFirstAux l []

/-- The token list `tokenize` returns never repeats a token: the source
ends post-processing with `[...new Set(processed)]`. -/
theorem nodup_tokenize (seg : List Char → List String) (text : List Char)
    (options : TokenizerOptions) : (tokenize seg text options).Nodup := by
  rw [tokenize]
  by_cases h : (text.filter (fun c => !isJsWhitespace c)).isEmpty
  · simp [h]
  · simp only [h, Bool.false_eq_true, if_false]
    exact nodup_eraseDupsFirst _

theorem mapGet?_append {κ β : Type} [DecidableEq κ]
    (l1 l2 : List (κ × β)) (k : κ) :
    mapGet? (l1 ++ l2) k =
      match mapGet? l1 k with
      | some v => some v
      | none => mapGet? l2 k := by
  induction l1 with
  | nil => simp [mapGet?]
  | cons p rest ih =>
    obtain ⟨k', v'⟩ := p
    by_cases hk : k' = k <;> simp [mapGet?, hk, ih]

theorem mapSet_eq_append {κ β : Type} [DecidableEq κ]
    (m : List (κ × β)) (k : κ) (v : β) (h : mapGet? m k = none) :
    mapSet m k v = m ++ [(k, v)] := by
  induction m with
  | nil => rfl
  | cons p rest ih =>
    obtain ⟨k', v'⟩ := p
    rw [mapGet?] at h
    by_cases hk : k' = k
    · rw [if_pos hk] at h
      cases h
    · rw [if_neg hk] at h
      rw [mapSet, if_neg hk, List.cons_append, ih h]

/-- On a duplicate-free token list the frequency fold of
`extractKeywords` just tags every token with the count 1. -/
theorem freqFold_of_nodup (tokens : List String) (acc : List (String × Nat))
    (hnd : tokens.Nodup) (hacc : ∀ t ∈ tokens, mapGet? acc t = none) :
    tokens.foldl (fun m token => mapSet m token ((mapGet? m token).getD 0 + 1))
        acc =
      acc ++ tokens.map (fun t => (t, 1)) := by
  induction tokens generalizing acc with
  | nil => simp
  | cons t rest ih =>
    rcases List.nodup_cons.mp hnd with ⟨hth, hrest⟩
    have hget : mapGet? acc t = none := hacc t (List.mem_cons_self t rest)
    rw [List.foldl_cons, hget]
    have hstep : mapSet acc t ((none : Option Nat).getD 0 + 1) =
        acc ++ [(t, 1)] := mapSet_eq_append acc t _ hget
    rw [hstep]
    rw [ih (acc ++ [(t, 1)]) hrest ?_]
    · simp
    · intro t' ht'
      rw [mapGet?_append, hacc t' (List.mem_cons_of_mem t ht')]
      rw [mapGet?, mapGet?, if_neg ?_]
      intro hEq
      exact hth (hEq ▸ ht')

/-- C8 counterexample: the claim says a term occurring more often in the
text never ranks after a term occurring less often.  In
"zebra apple apple apple" the term "apple" occurs 3 times and "zebra"
once, yet `extractKeywords` returns `["zebra", "apple"]`: `tokenize`
deduplicates before the frequency count, so every counted frequency is
1 and the stable sort keeps first-seen order. -/
theorem extractKeywords_not_frequency_ranked :
    extractKeywords fallbackTokenize "zebra apple apple apple".data 10 =
      ["zebra", "apple"] ∧
    (fallbackTokenize "zebra apple apple apple".data).count "apple" = 3 ∧
    (fallbackTokenize "zebra apple apple apple".data).count "zebra" = 1 := by
  refine ⟨by decide, by decide, by decide⟩

/-- C8 as amended: `extractKeywords` returns the distinct
post-filtering tokens in first-seen order, truncated to `maxKeywords`
(default 10).  The frequency ranking is a no-op: `tokenize` (called
with `filterStopWords = true, minWordLength = 2`) deduplicates its
output, every entry of the frequency map is therefore 1, and the stable
descending sort leaves the insertion order unchanged. -/
theorem extractKeywords_is_first_seen_order
    (seg : List Char → List String) (text : List Char) (maxKeywords : Nat) :
    extractKeywords seg text maxKeywords =
      (tokenize seg text
          { filterStopWords := some true, minWordLength := some 2 }).take
        maxKeywords ∧
    extractKeywords seg text =
      (tokenize seg text
          { filterStopWords := some true, minWordLength := some 2 }).take 10 := by
  have main : ∀ (mk : Nat), extractKeywords seg text mk =
      (tokenize seg text
          { filterStopWords := some true, minWordLength := some 2 }).take mk := by
    intro mk
    rw [extractKeywords]
    have hnd := nodup_tokenize seg text
      { filterStopWords := some true, minWordLength := some 2 }
    rw [freqFold_of_nodup _ [] hnd (fun t _ => rfl), List.nil_append]
    rw [sortByDesc_all_eq _ 1 _ ?_]
    · rw [← List.map_take, List.map_map]
      have : ((fun p => p.1) ∘ fun t : String => (t, 1)) = id := rfl
      rw [this, List.map_id]
    · intro p hp
      rcases List.mem_map.mp hp with ⟨t, _, rfl⟩
      norm_num
  exact ⟨main maxKeywords, main 10⟩

/-! ## Lemmas for C9: escaping and `ILIKE` semantics -/

theorem replacePercents_append (a b : List Char) :
    replacePercents (a ++ b) = replacePercents a ++ replacePercents b := by
  induction a with
  | nil => rfl
  | cons c rest ih =>
    by_cases hc : c = '%' <;> simp [replacePercents, hc, ih]

theorem replaceUnderscores_append (a b : List Char) :
    replaceUnderscores (a ++ b) =
      replaceUnderscores a ++ replaceUnderscores b := by
  induction a with
  | nil => rfl
  | cons c rest ih =>
    by_cases hc : c = '_' <;> simp [replaceUnderscores, hc, ih]

theorem escapeSQL_cons_squote (r : List Char) :
    escapeSQL (squote :: r) = squote :: squote :: escapeSQL r := by
  simp [escapeSQL, replaceQuotes, replacePercents, replaceUnderscores,
    show squote ≠ '%' from by decide, show squote ≠ '_' from by decide]

theorem escapeSQL_cons_percent (r : List Char) :
    escapeSQL ('%' :: r) = bslash :: '%' :: escapeSQL r := by
  simp [escapeSQL, replaceQuotes, replacePercents, replaceUnderscores,
    show ('%' : Char) ≠ squote from by decide,
    show bslash ≠ '_' from by decide, show ('%' : Char) ≠ '_' from by decide]

theorem escapeSQL_cons_underscore (r : List Char) :
    escapeSQL ('_' :: r) = bslash :: '_' :: escapeSQL r := by
  simp [escapeSQL, replaceQuotes, replacePercents, replaceUnderscores,
    show ('_' : Char) ≠ squote from by decide,
    show ('_' : Char) ≠ '%' from by decide, show bslash ≠ '_' from by decide]

theorem escapeSQL_cons_plain (c : Char) (r : List Char)
    (h1 : c ≠ squote) (h2 : c ≠ '%') (h3 : c ≠ '_') :
    escapeSQL (c :: r) = c :: escapeSQL r := by
  simp [escapeSQL, replaceQuotes, replacePercents, replaceUnderscores,
    h1, h2, h3]

/-- The decoded literal body of an escaped keyword: only the `LIKE`
metacharacter escaping remains once the SQL lexer has undone the quote
doubling. -/
def likeEsc (kw : List Char) : List Char :=
  replaceUnderscores (replacePercents kw)

theorem likeEsc_cons_squote (r : List Char) :
    likeEsc (squote :: r) = squote :: likeEsc r := by
  simp [likeEsc, replacePercents, replaceUnderscores,
    show squote ≠ '%' from by decide, show squote ≠ '_' from by decide]

theorem likeEsc_cons_percent (r : List Char) :
    likeEsc ('%' :: r) = bslash :: '%' :: likeEsc r := by
  simp [likeEsc, replacePercents, replaceUnderscores,
    show bslash ≠ '_' from by decide, show ('%' : Char) ≠ '_' from by decide]

theorem likeEsc_cons_underscore (r : List Char) :
    likeEsc ('_' :: r) = bslash :: '_' :: likeEsc r := by
  simp [likeEsc, replacePercents, replaceUnderscores,
    show ('_' : Char) ≠ '%' from by decide, show bslash ≠ '_' from by decide]

theorem likeEsc_cons_plain (c : Char) (r : List Char)
    (h2 : c ≠ '%') (h3 : c ≠ '_') : likeEsc (c :: r) = c :: likeEsc r := by
  simp [likeEsc, replacePercents, replaceUnderscores, h2, h3]

theorem decodeSqlLit_cons_squote (x : List Char) :
    decodeSqlLit (squote :: squote :: x) =
      (decodeSqlLit x).map (fun d => squote :: d) := by
  simp [decodeSqlLit]

theorem decodeSqlLit_cons_plain (c : Char) (x : List Char) (h : c ≠ squote) :
    decodeSqlLit (c :: x) = (decodeSqlLit x).map (fun d => c :: d) := by
  rw [decodeSqlLit.eq_def]
  simp only [if_neg h]

theorem parseLikePattern_cons_escape (c : Char) (x : List Char) :
    parseLikePattern (bslash :: c :: x) =
      (parseLikePattern x).map (fun p => LikeTok.lit c :: p) := by
  simp [parseLikePattern]

theorem parseLikePattern_cons_percent (x : List Char) :
    parseLikePattern ('%' :: x) =
      (parseLikePattern x).map (fun p => LikeTok.anyStr :: p) := by
  rw [parseLikePattern.eq_def]
  simp [show ('%' : Char) ≠ bslash from by decide]

theorem parseLikePattern_cons_plain (c : Char) (x : List Char)
    (h1 : c ≠ bslash) (h2 : c ≠ '%') (h3 : c ≠ '_') :
    parseLikePattern (c :: x) =
      (parseLikePattern x).map (fun p => LikeTok.lit c :: p) := by
  rw [parseLikePattern.eq_def]
  simp [h1, h2, h3]

/-- Decoding the escaped keyword inside the literal succeeds (doubled
quotes keep the literal well formed) and yields the keyword with only
its `LIKE` metacharacters escaped. -/
theorem decode_escapeSQL (kw : List Char) (h : bslash ∉ kw) (t : List Char) :
    decodeSqlLit (escapeSQL kw ++ t) =
      (decodeSqlLit t).map (fun d => likeEsc kw ++ d) := by
  induction kw generalizing t with
  | nil =>
    simp [escapeSQL, replaceQuotes, replacePercents, replaceUnderscores, likeEsc]
  | cons c rest ih =>
    have hb : bslash ∉ rest := fun hr => h (List.mem_cons_of_mem c hr)
    have hcb : c ≠ bslash := fun hEq => h (hEq ▸ List.mem_cons_self c rest)
    by_cases h1 : c = squote
    · subst h1
      rw [escapeSQL_cons_squote, List.cons_append, List.cons_append,
        decodeSqlLit_cons_squote, ih hb, Option.map_map, likeEsc_cons_squote]
      rfl
    · by_cases h2 : c = '%'
      · subst h2
        rw [escapeSQL_cons_percent, List.cons_append, List.cons_append,
          decodeSqlLit_cons_plain bslash _ (by decide),
          decodeSqlLit_cons_plain '%' _ (by decide), ih hb,
          Option.map_map, Option.map_map, likeEsc_cons_percent]
        rfl
      · by_cases h3 : c = '_'
        · subst h3
          rw [escapeSQL_cons_underscore, List.cons_append, List.cons_append,
            decodeSqlLit_cons_plain bslash _ (by decide),
            decodeSqlLit_cons_plain '_' _ (by decide), ih hb,
            Option.map_map, Option.map_map, likeEsc_cons_underscore]
          rfl
        · rw [escapeSQL_cons_plain c _ h1 h2 h3, List.cons_append,
            decodeSqlLit_cons_plain c _ h1, ih hb, Option.map_map,
            likeEsc_cons_plain c _ h2 h3]
          rfl

/-- Parsing the decoded body turns every keyword character into a
literal token: the escaping neutralizes `%`, `_` (and the quote never
reaches the pattern as a metacharacter). -/
theorem parse_likeEsc (kw : List Char) (h : bslash ∉ kw) (t : List Char) :
    parseLikePattern (likeEsc kw ++ t) =
      (parseLikePattern t).map (fun p => kw.map LikeTok.lit ++ p) := by
  induction kw generalizing t with
  | nil => simp [likeEsc, replacePercents, replaceUnderscores]
  | cons c rest ih =>
    have hb : bslash ∉ rest := fun hr => h (List.mem_cons_of_mem c hr)
    have hcb : c ≠ bslash := fun hEq => h (hEq ▸ List.mem_cons_self c rest)
    by_cases h2 : c = '%'
    · subst h2
      rw [likeEsc_cons_percent, List.cons_append, List.cons_append,
        parseLikePattern_cons_escape, ih hb, Option.map_map]
      rfl
    · by_cases h3 : c = '_'
      · subst h3
        rw [likeEsc_cons_underscore, List.cons_append, List.cons_append,
          parseLikePattern_cons_escape, ih hb, Option.map_map]
        rfl
      · rw [likeEsc_cons_plain c _ h2 h3, List.cons_append,
          parseLikePattern_cons_plain c _ hcb h2 h3, ih hb, Option.map_map]
        rfl

theorem anySuffix_eq_true_iff (f : List Char → Bool) (ds : List Char) :
    anySuffix f ds = true ↔ ∃ n, f (ds.drop n) = true := by
  induction ds with
  | nil =>
    simp only [anySuffix, List.drop_nil]
    exact ⟨fun h => ⟨0, h⟩, fun ⟨n, h⟩ => h⟩
  | cons d ds ih =>
    simp only [anySuffix, Bool.or_eq_true, ih]
    constructor
    · rintro (h | ⟨n, h⟩)
      · exact ⟨0, h⟩
      · exact ⟨n + 1, h⟩
    · rintro ⟨n, h⟩
      cases n with
      | zero => exact Or.inl h
      | succ n => exact Or.inr ⟨n, h⟩

theorem likeMatches_nil_anySuffix (ds : List Char) :
    anySuffix (likeMatches []) ds = true := by
  induction ds with
  | nil => rfl
  | cons d ds ih => rw [anySuffix, ih, Bool.or_true]

/-- A run of literal tokens followed by `%` matches exactly the contents
that start (case-insensitively) with those literals. -/
theorem likeMatches_lits_anyStr (kw ds : List Char) :
    likeMatches (kw.map LikeTok.lit ++ [LikeTok.anyStr]) ds = true ↔
      (kw.map Char.toLower) <+: (ds.map Char.toLower) := by
  induction kw generalizing ds with
  | nil =>
    simp only [List.map_nil, List.nil_append]
    constructor
    · intro _
      exact List.nil_prefix
    · intro _
      exact likeMatches_nil_anySuffix ds
  | cons c kw ih =>
    cases ds with
    | nil =>
      simp [likeMatches]
    | cons d ds =>
      simp only [List.map_cons, List.cons_append, likeMatches,
        Bool.and_eq_true, beq_iff_eq, List.append_eq, ih,
        List.cons_prefix_cons]

/-- The full pattern `% lits(kw) %` matches exactly the contents that
contain the keyword (case-insensitively) as a contiguous substring. -/
theorem likeMatches_full_pattern (kw ds : List Char) :
    likeMatches (LikeTok.anyStr :: (kw.map LikeTok.lit ++ [LikeTok.anyStr]))
        ds = true ↔
      (kw.map Char.toLower) <:+: (ds.map Char.toLower) := by
  rw [show likeMatches
        (LikeTok.anyStr :: (kw.map LikeTok.lit ++ [LikeTok.anyStr])) ds =
      anySuffix (likeMatches (kw.map LikeTok.lit ++ [LikeTok.anyStr])) ds
    from rfl]
  rw [anySuffix_eq_true_iff]
  constructor
  · rintro ⟨n, hn⟩
    rw [likeMatches_lits_anyStr] at hn
    rw [List.map_drop] at hn
    exact hn.isInfix.trans (List.drop_suffix n (ds.map Char.toLower)).isInfix
  · intro hinf
    rcases hinf with ⟨s, t, hst⟩
    refine ⟨s.length, ?_⟩
    rw [likeMatches_lits_anyStr, List.map_drop, ← hst, List.append_assoc,
      List.drop_left]
    exact List.prefix_append _ _

/-- C9 counterexample: the claim covers every keyword containing `%`,
`_` or a quote.  The keyword `\%` contains `%`, but `escapeSQL` never
escapes backslashes: it becomes `\\%`, which the `LIKE` parser reads as
a literal backslash followed by a WILDCARD.  The content `a\b` does not
contain the keyword `\%`, yet the predicate matches it — the keyword's
`%` widened the predicate's scope. -/
theorem escapeSQL_backslash_widens_predicate :
    keywordPredicate [bslash, '%'] ['a', bslash, 'b'] = some true ∧
    decide ((([bslash, '%']).map Char.toLower) <:+:
      ((['a', bslash, 'b']).map Char.toLower)) = false := by
  refine ⟨by decide, by decide⟩

/-- C9 as amended: for every keyword free of backslashes — `%`, `_` and
quote characters allowed — the constructed fragment is a well-formed
single SQL literal (the doubled quotes cannot break out of it), parses
to a pattern of literal tokens wrapped in two wildcards, and matches a
document exactly when the document's content contains the literal
keyword as a case-insensitive contiguous substring. -/
theorem keywordPredicate_is_substring (kw content : List Char)
    (h : bslash ∉ kw) :
    keywordPredicate kw content =
      some (decide ((kw.map Char.toLower) <:+: (content.map Char.toLower))) := by
  have hdec : decodeSqlLit (escapeSQL kw) = some (likeEsc kw) := by
    have hd := decode_escapeSQL kw h []
    rw [List.append_nil] at hd
    rw [hd]
    simp [decodeSqlLit]
  have hparse : parseLikePattern ('%' :: (likeEsc kw ++ ['%'])) =
      some (LikeTok.anyStr :: (kw.map LikeTok.lit ++ [LikeTok.anyStr])) := by
    rw [parseLikePattern_cons_percent, parse_likeEsc kw h ['%'],
      parseLikePattern_cons_percent]
    rfl
  rw [keywordPredicate, hdec, Option.some_bind, List.cons_append, hparse,
    Option.map_some']
  congr 1
  by_cases hP : (kw.map Char.toLower) <:+: (content.map Char.toLower)
  · rw [decide_eq_true hP]
    exact (likeMatches_full_pattern kw content).mpr hP
  · rw [decide_eq_false hP]
    exact Bool.eq_false_iff.mpr
      (fun ht => hP ((likeMatches_full_pattern kw content).mp ht))

/-- Witness for C9's amended statement: the keyword `a%` (which
contains `%` and no backslash) matches the content `za%q` — which
contains it literally — and the match goes through the theorem. -/
theorem keywordPredicate_witness :
    keywordPredicate ['a', '%'] ['z', 'a', '%', 'q'] = some true := by
  rw [keywordPredicate_is_substring ['a', '%'] ['z', 'a', '%', 'q'] (by decide)]
  decide

end Mirror
